import Mathlib

/-!
Shallow embedding of `src/app.py` (WBS Progress Tracker).

The program keeps a two-level work-breakdown-structure: a list of phase
nodes (Python dicts with keys id/name/level/completed/expanded/children),
each holding a list of task nodes.  The functions below translate, line by
line, the parsing helper `parse_csv_to_wbs`, the completion synchronizer
`sync_parent_completion`, the aggregator `calculate_progress`, and the four
module-top-level handlers (add parent, add child, phase checkbox, child
checkbox + parent sync).  CSV rows are modelled as lists of string fields,
exactly what Python's `csv.reader` yields per line; the Streamlit handlers
are modelled as pure tree transformations (a checkbox reads the stored
flag except the one the user just set; `st.experimental_rerun` re-enters
the render loop, whose per-phase updates are independent, so one full pass
over the phase list is the fixpoint of the rerun cycle).
-/

/-- A task (child) node: the dict built at `app.py` lines 63-70 / 212-217. -/
structure TaskNode where
  id : String
  name : String
  level : Nat
  completed : Bool
deriving Repr, DecidableEq

/-- A phase (parent) node: the dict built at `app.py` lines 46-53 / 191-198. -/
structure PhaseNode where
  id : String
  name : String
  level : Nat
  completed : Bool
  expanded : Bool
  children : List TaskNode
deriving Repr, DecidableEq

/-- Parser state of `parse_csv_to_wbs`: the accumulated `wbs` list and
`parent_index` (starts at -1; `current_parent` in the Python source always
aliases the phase at index `parent_index` of `wbs`, i.e. the last phase
appended, and is `None` exactly while `parent_index` is -1). -/
structure ParseState where
  wbs : List PhaseNode
  parentIndex : Int
deriving Repr, DecidableEq

/-- Python's `str.strip()`: remove leading and trailing whitespace.
(Defined over the character list so that it evaluates by kernel
reduction; the library's `String.trim` is equivalent but is compiled by
well-founded recursion and does not reduce.) -/
def pyStrip (s : String) : String :=
  String.mk
    (((s.data.dropWhile Char.isWhitespace).reverse.dropWhile
        Char.isWhitespace).reverse)

/-- Python's `str.lower()`, mapped character by character. -/
def pyLower (s : String) : String :=
  String.mk (s.data.map Char.toLower)

/-- Python's `str.startswith(pre)`. -/
def pyStartsWith (s pre : String) : Bool :=
  pre.data.isPrefixOf s.data

/-- Blank-row test of `app.py` line 33
(`if not any(field.strip() for field in row)`): a row is blank when every
field strips to the empty string. -/
def rowIsBlank (row : List String) : Bool :=
  !(row.any (fun field => pyStrip field != ""))

/-- One iteration of the `for row in reader` loop of `parse_csv_to_wbs`
(`app.py` lines 30-72): skip blank rows, open a new phase on a phase row
(empty first field, second field starting with "phase" case-insensitively),
else append a task to the current open phase when one exists, the name is
non-empty and does not itself start with "phase". -/
def processRow (st : ParseState) (row : List String) : ParseState :=
  if rowIsBlank row then st
  else
    let task_name := pyStrip (row.getD 1 (""))
    let task_id_indicator := pyStrip (row.getD 0 (""))
    if task_id_indicator = "" ∧ pyStartsWith (pyLower task_name) ("phase") then
      let parent_index := st.parentIndex + 1
      let current_parent : PhaseNode :=
        { id := "p_" ++ toString parent_index
          name := task_name
          level := 0
          completed := false
          expanded := true
          children := [] }
      { wbs := st.wbs ++ [current_parent], parentIndex := parent_index }
    else if 0 ≤ st.parentIndex ∧ task_name ≠ "" ∧
        ¬ pyStartsWith (pyLower task_name) ("phase") then
      -- inner guard at line 61 (redundant given the branch condition)
      if ¬ (task_id_indicator = "" ∧
          pyStartsWith (pyLower task_name) ("phase")) then
        match st.wbs.get? st.parentIndex.toNat with
        | none => st  -- unreachable: `current_parent` aliases `wbs[parent_index]`
        | some current_parent =>
          let child_index := current_parent.children.length
          let child_task : TaskNode :=
            { id := "p_" ++ toString st.parentIndex ++ "_c_" ++ toString child_index
              name := task_name
              level := 1
              completed := false }
          { wbs := st.wbs.set st.parentIndex.toNat
              { current_parent with
                  children := current_parent.children ++ [child_task] }
            parentIndex := st.parentIndex }
      else st
    else st

/-- The function `sync_parent_completion` (`app.py` lines 85-94): for every parent with a
non-empty children list, set `completed` to the conjunction of the
children's flags; a parent with no children keeps its existing state. -/
def sync_parent_completion (wbs_data : List PhaseNode) : List PhaseNode :=
  wbs_data.map (fun parent =>
    if parent.children = [] then parent
    else { parent with
             completed := parent.children.all (fun c => c.completed) })

/-- The function `parse_csv_to_wbs` (`app.py` lines 13-83): skip the first 7 rows (a
`StopIteration` while skipping is caught at line 74 and parsing falls
through with the empty list), fold the row loop over the rest, then run
the initial `sync_parent_completion` pass. -/
def parse_csv_to_wbs (rows : List (List String)) : List PhaseNode :=
  let final := (rows.drop 7).foldl processRow { wbs := [], parentIndex := -1 }
  sync_parent_completion final.wbs

/-- Total number of child tasks counted by `calculate_progress`
(`app.py` lines 98-102): only children are counted, never phases. -/
def totalChildren (wbs_data : List PhaseNode) : Nat :=
  (wbs_data.map (fun parent => parent.children.length)).sum

/-- Number of completed child tasks counted by `calculate_progress`
(`app.py` lines 99-104). -/
def completedChildren (wbs_data : List PhaseNode) : Nat :=
  (wbs_data.map (fun parent =>
    (parent.children.filter (fun c => c.completed)).length)).sum

/-- The function `calculate_progress` (`app.py` lines 96-105): the ratio of completed
children to total children, or 0 when there are no children. -/
def calculate_progress (wbs_data : List PhaseNode) : ℚ :=
  if 0 < totalChildren wbs_data then
    (completedChildren wbs_data : ℚ) / (totalChildren wbs_data : ℚ)
  else 0

/-- The add-parent handler (`app.py` lines 189-202): append a new phase at
the end, with id derived from the length of the list. -/
def addPhase (wbs : List PhaseNode) (name : String) : List PhaseNode :=
  let parent_index := wbs.length
  wbs ++ [{ id := "p_" ++ toString parent_index
            name := name
            level := 0
            completed := false
            expanded := true
            children := [] }]

/-- The add-child handler (`app.py` lines 204-228): find the first phase
whose id matches (the loop breaks at the first hit), append a new
incomplete task whose id is derived from the phase's list index and the
child position, and force the parent's `completed` to false (line 220).
When no phase matches, the tree is left unchanged (an error is shown). -/
def addTask (wbs : List PhaseNode) (pid : String) (name : String) :
    List PhaseNode :=
  match wbs.findIdx? (fun p => p.id = pid) with
  | none => wbs
  | some parent_index =>
    match wbs.get? parent_index with
    | none => wbs  -- unreachable: `findIdx?` returns an in-range index
    | some p =>
      let child_index := p.children.length
      let new_child : TaskNode :=
        { id := "p_" ++ toString parent_index ++ "_c_" ++ toString child_index
          name := name
          level := 1
          completed := false }
      wbs.set parent_index
        { p with children := p.children ++ [new_child], completed := false }

/-- The phase-checkbox handler (`app.py` lines 254-270): the checkbox of
phase `pid` reads `v`; line 263 fires only when `v` differs from the
stored flag, and then sets the phase and every child to `v` (lines
264-267) before rerunning.  Checkboxes of other phases read their stored
flags, so the handler never fires for them. -/
def togglePhase (wbs : List PhaseNode) (pid : String) (v : Bool) :
    List PhaseNode :=
  wbs.map (fun parent_task =>
    if parent_task.id = pid ∧ v ≠ parent_task.completed then
      { parent_task with
          completed := v
          children := parent_task.children.map
            (fun child_task => { child_task with completed := v }) }
    else parent_task)

/-- The child-checkbox loop and parent sync (`app.py` lines 273-304): the
checkbox of task `tid` reads `v`, every other child checkbox reads its
stored flag.  Each phase updates its changed children (line 290), computes
`all_children_now_complete` (line 276: non-empty children list required,
else `False`; line 295-296: conjunction over the updated children), then
lines 300-302 overwrite the parent's flag when a child changed or the
parent was checked with not all children complete. -/
def toggleTask (wbs : List PhaseNode) (tid : String) (v : Bool) :
    List PhaseNode :=
  wbs.map (fun parent_task =>
    let children := parent_task.children.map (fun child_task =>
      if child_task.id = tid then { child_task with completed := v }
      else child_task)
    let children_changed := parent_task.children.any (fun child_task =>
      child_task.id == tid && child_task.completed != v)
    let all_children_now_complete :=
      !parent_task.children.isEmpty && children.all (fun c => c.completed)
    if (children_changed || (parent_task.completed &&
          !all_children_now_complete)) &&
        parent_task.completed != all_children_now_complete then
      { parent_task with
          children := children
          completed := all_children_now_complete }
    else { parent_task with children := children })

/-! ### Concrete fixtures used by witnesses and counterexamples -/

/-- Splitting a character list at every occurrence of a separator
(Python's `str.split(sep)` over the characters). -/
def splitCharList (sep : Char) : List Char → List (List Char)
  | [] => [[]]
  | c :: cs =>
    let rest := splitCharList sep cs
    if c = sep then [] :: rest
    else
      match rest with
      | [] => [[c]]
      | r :: rs => (c :: r) :: rs

/-- Splitting a string at a separator character. -/
def pySplit (s : String) (sep : Char) : List String :=
  (splitCharList sep s.data).map String.mk

/-- Splitting CSV text into rows: `csv.reader` over comma-separated,
quote-free lines (the only kind appearing in the fixtures below). -/
def csvRowsOfText (s : String) : List (List String) :=
  (pySplit s ('\n')).map (fun line => pySplit line (','))

/-- The initial parser state of `parse_csv_to_wbs`. -/
def initState : ParseState := { wbs := [], parentIndex := -1 }

/-- A sample incomplete task. -/
def taskT : TaskNode := { id := "p_0_c_0", name := "T", level := 1, completed := false }

/-- A sample phase holding one incomplete task. -/
def phaseA : PhaseNode :=
  { id := "p_0", name := "A", level := 0, completed := false, expanded := true,
    children := [taskT] }

/-- A sample childless phase marked completed. -/
def phaseB : PhaseNode :=
  { id := "p_1", name := "B", level := 0, completed := true, expanded := true,
    children := [] }

/-! ### List helper lemmas -/

theorem listGetSetSelf {α : Type} (l : List α) (i : Nat) (a : α)
    (h : i < l.length) : (l.set i a).get? i = some a := by
  induction l generalizing i with
  | nil => simp at h
  | cons x xs ih =>
    cases i with
    | zero => rfl
    | succ n => exact ih n (Nat.lt_of_succ_lt_succ h)

theorem listGetSetOther {α : Type} (l : List α) (i j : Nat) (a : α)
    (h : j ≠ i) : (l.set i a).get? j = l.get? j := by
  induction l generalizing i j with
  | nil => simp
  | cons x xs ih =>
    cases i with
    | zero =>
      cases j with
      | zero => exact absurd rfl h
      | succ m => rfl
    | succ n =>
      cases j with
      | zero => rfl
      | succ m => exact ih n m (fun hc => h (congrArg Nat.succ hc))

theorem listGetAppendLast {α : Type} (l : List α) (a : α) (i : Nat) :
    (l ++ [a]).get? i =
      if i < l.length then l.get? i
      else if i = l.length then some a else none := by
  induction l generalizing i with
  | nil =>
    cases i with
    | zero => rfl
    | succ n => simp
  | cons x xs ih =>
    cases i with
    | zero =>
      rw [if_pos (show 0 < (x :: xs).length by
        simp only [List.length_cons]; omega)]
      rfl
    | succ n =>
      have key := ih n
      by_cases h1 : n < xs.length
      · rw [if_pos (show n + 1 < (x :: xs).length by
          simp only [List.length_cons]; omega)]
        show (xs ++ [a]).get? n = xs.get? n
        rw [key, if_pos h1]
      · by_cases h2 : n = xs.length
        · rw [if_neg (show ¬ n + 1 < (x :: xs).length by
              simp only [List.length_cons]; omega),
            if_pos (show n + 1 = (x :: xs).length by
              simp only [List.length_cons]; omega)]
          show (xs ++ [a]).get? n = some a
          rw [key, if_neg h1, if_pos h2]
        · rw [if_neg (show ¬ n + 1 < (x :: xs).length by
              simp only [List.length_cons]; omega),
            if_neg (show ¬ n + 1 = (x :: xs).length by
              simp only [List.length_cons]; omega)]
          show (xs ++ [a]).get? n = none
          rw [key, if_neg h1, if_neg h2]

theorem lt_length_of_get?_eq_some {α : Type} {l : List α} {i : Nat} {a : α}
    (h : l.get? i = some a) : i < l.length := by
  by_contra hc
  rw [List.get?_eq_none.mpr (Nat.le_of_not_lt hc)] at h
  cases h

/-! ### Claim theorems -/

/-- C1: after `sync_parent_completion`, every phase with at least one child
has `completed` equal to the conjunction of its children's flags, and every
phase with zero children is left entirely unchanged (the empty conjunction
is not enforced as true). -/
theorem sync_parent_completion_spec (wbs : List PhaseNode) (i : Nat)
    (p : PhaseNode) (h : wbs.get? i = some p) :
    (sync_parent_completion wbs).get? i =
      some (if p.children = [] then p
            else { p with completed := p.children.all (fun c => c.completed) }) := by
  rw [sync_parent_completion, List.get?_map, h]
  rfl

theorem sync_parent_completion_spec_witness :
    (sync_parent_completion [phaseA, phaseB]).get? 1 =
      some (if phaseB.children = [] then phaseB
            else { phaseB with
                     completed := phaseB.children.all (fun c => c.completed) }) :=
  sync_parent_completion_spec [phaseA, phaseB] 1 phaseB rfl

theorem completedChildren_le_totalChildren (wbs : List PhaseNode) :
    completedChildren wbs ≤ totalChildren wbs := by
  induction wbs with
  | nil => exact Nat.le_refl 0
  | cons p t ih =>
    simp only [completedChildren, totalChildren, List.map_cons, List.sum_cons] at ih ⊢
    exact Nat.add_le_add (List.length_filter_le _ _) ih

/-- C5: `calculate_progress` is 0 on a tree without tasks (no division by
zero), is the exact ratio of completed tasks to total tasks otherwise
(only task nodes are counted, never phase flags), and always lies in the
closed interval from 0 to 1. -/
theorem calculate_progress_spec (wbs : List PhaseNode) :
    (totalChildren wbs = 0 → calculate_progress wbs = 0) ∧
    (0 < totalChildren wbs →
      calculate_progress wbs =
        (completedChildren wbs : ℚ) / (totalChildren wbs : ℚ)) ∧
    0 ≤ calculate_progress wbs ∧ calculate_progress wbs ≤ 1 := by
  refine ⟨fun h => ?_, fun h => ?_, ?_, ?_⟩
  · simp [calculate_progress, h]
  · rw [calculate_progress, if_pos h]
  · rw [calculate_progress]
    split
    · positivity
    · exact le_refl 0
  · rw [calculate_progress]
    split
    · rename_i h
      rw [div_le_one (by exact_mod_cast h)]
      exact_mod_cast completedChildren_le_totalChildren wbs
    · exact zero_le_one

theorem calculate_progress_spec_witness :
    calculate_progress [phaseA, phaseB] =
      (completedChildren [phaseA, phaseB] : ℚ) /
        (totalChildren [phaseA, phaseB] : ℚ) :=
  (calculate_progress_spec [phaseA, phaseB]).2.1 (by decide)

/-- C9: when the CSV input has fewer rows than the fixed skip count of 7,
`parse_csv_to_wbs` returns the empty tree instead of raising (the
`StopIteration` hit while skipping is caught and parsing falls through). -/
theorem parse_csv_to_wbs_short_input (rows : List (List String))
    (h : rows.length < 7) : parse_csv_to_wbs rows = [] := by
  rw [parse_csv_to_wbs]
  rw [List.drop_eq_nil_of_le (Nat.le_of_lt h)]
  rfl

theorem parse_csv_to_wbs_short_input_witness :
    ([["a"], ["b"]] : List (List String)).length < 7 ∧
      parse_csv_to_wbs [["a"], ["b"]] = [] :=
  ⟨by decide, parse_csv_to_wbs_short_input [["a"], ["b"]] (by decide)⟩

/-- C8: a row with fewer than two fields is classified exactly as if the
missing fields were present and empty; `processRow` is total, so no
exception is possible. -/
theorem processRow_pads_short_rows (st : ParseState) (row : List String)
    (h : row.length < 2) :
    processRow st row =
      processRow st (row ++ List.replicate (2 - row.length) ("")) := by
  match row, h with
  | [], _ => rfl
  | [a], _ => rfl

theorem processRow_pads_short_rows_witness :
    (["x"] : List String).length < 2 ∧
      processRow initState ["x"] =
        processRow initState
          (["x"] ++ List.replicate (2 - (["x"] : List String).length) ("")) :=
  ⟨by decide, processRow_pads_short_rows initState ["x"] (by decide)⟩

/-- A phase used as the current open phase in classifier fixtures. -/
def openPhase : PhaseNode :=
  { id := "p_0", name := "Phase 1", level := 0, completed := false,
    expanded := true, children := [] }

/-- A parser state with one open phase, as reached right after a phase row. -/
def openState : ParseState := { wbs := [openPhase], parentIndex := 0 }

/-- A phase whose stored flag is false while its single child is completed
(the completion invariant does not hold here; used to exercise the
change-detection guard of the phase checkbox). -/
def mixedPhase : PhaseNode :=
  { id := "p_0", name := "A", level := 0, completed := false, expanded := true,
    children := [{ id := "p_0_c_0", name := "T", level := 1, completed := true }] }

/-- The end-to-end CSV fixture of the spec: 7 header rows, a phase row, a
task row, and a second phase row. -/
def demoText : String :=
  "h1\nh2\nh3\nh4\nh5\nh6\nh7\n,Phase 1: Design\n,Drawings\n,Phase 2: Build"

/-- The tree parsed from `demoText`. -/
def demoTree : List PhaseNode := parse_csv_to_wbs (csvRowsOfText demoText)

theorem rowIsBlank_false_of_name (row : List String)
    (h : pyStrip (row.getD 1 ("")) ≠ "") : rowIsBlank row = false := by
  match row with
  | [] => exact absurd rfl h
  | [a] => exact absurd rfl h
  | a :: b :: t =>
    have hb : (pyStrip b != "") = true := bne_iff_ne.mpr h
    simp [rowIsBlank, hb]

/-- C2 counterexample: with an open phase, the row `["X", "Phase extra"]`
has a non-empty second field and is not a phase row (its first field is
non-empty), yet the classifier emits nothing: the state is unchanged, no
task is attached.  The code drops every row whose name starts with
"phase", not only rows that themselves classify as phase rows. -/
theorem processRow_task_rule_counterexample :
    (0 ≤ openState.parentIndex) ∧
    pyStrip ((["X", "Phase extra"] : List String).getD 1 ("")) ≠ "" ∧
    ¬ (pyStrip ((["X", "Phase extra"] : List String).getD 0 ("")) = "" ∧
        pyStartsWith
          (pyLower (pyStrip ((["X", "Phase extra"] : List String).getD 1 (""))))
          ("phase") = true) ∧
    processRow openState ["X", "Phase extra"] = openState := by decide

/-- C2 as amended: with a current open phase, a row whose trimmed second
field is non-empty *and does not start with "phase" case-insensitively*
(regardless of the first field) is attached as a task to the open phase;
rows with a phase-prefixed name are dropped even when they are not phase
rows. -/
theorem processRow_task_rule (st : ParseState) (row : List String)
    (p : PhaseNode)
    (hp : st.wbs.get? st.parentIndex.toNat = some p)
    (hopen : 0 ≤ st.parentIndex)
    (hname : pyStrip (row.getD 1 ("")) ≠ "")
    (hnophase :
      pyStartsWith (pyLower (pyStrip (row.getD 1 ("")))) ("phase") = false) :
    processRow st row =
      { wbs := st.wbs.set st.parentIndex.toNat
          { p with children := p.children ++
              [{ id := "p_" ++ toString st.parentIndex ++ "_c_" ++
                   toString p.children.length
                 name := pyStrip (row.getD 1 (""))
                 level := 1
                 completed := false }] }
        parentIndex := st.parentIndex } := by
  have hblank := rowIsBlank_false_of_name row hname
  have hnp :
      ¬ pyStartsWith (pyLower (pyStrip (row.getD 1 ("")))) ("phase") = true := by
    intro hx
    rw [hnophase] at hx
    exact Bool.noConfusion hx
  simp only [processRow]
  split
  · rename_i hb
    rw [hblank] at hb
    exact Bool.noConfusion hb
  · split
    · rename_i hph
      exact absurd hph.2 hnp
    · split
      · rw [hp]
      · rename_i hchild
        exact absurd ⟨hopen, hname, hnp⟩ hchild

theorem processRow_task_rule_witness :
    processRow openState ["", "Task A"] =
      { wbs := openState.wbs.set openState.parentIndex.toNat
          { openPhase with children := openPhase.children ++
              [{ id := "p_" ++ toString openState.parentIndex ++ "_c_" ++
                   toString openPhase.children.length
                 name := pyStrip ((["", "Task A"] : List String).getD 1 (""))
                 level := 1
                 completed := false }] }
        parentIndex := openState.parentIndex } :=
  processRow_task_rule openState ["", "Task A"] openPhase rfl (by decide)
    (by decide) (by decide)

/-- C3: parsing the end-to-end fixture yields exactly two phases, the
first holding the single task "Drawings" with id `p_0_c_0`, the second
childless; overall progress is 0; toggling `p_0_c_0` to true makes phase
`p_0` completed and overall progress 1. -/
theorem parse_toggle_end_to_end :
    demoTree =
      [{ id := "p_0", name := "Phase 1: Design", level := 0,
         completed := false, expanded := true,
         children := [{ id := "p_0_c_0", name := "Drawings", level := 1,
                        completed := false }] },
       { id := "p_1", name := "Phase 2: Build", level := 0,
         completed := false, expanded := true, children := [] }] ∧
    calculate_progress demoTree = 0 ∧
    (toggleTask demoTree ("p_0_c_0") true).map
        (fun p => (p.id, p.completed)) = [("p_0", true), ("p_1", false)] ∧
    calculate_progress (toggleTask demoTree ("p_0_c_0") true) = 1 := by
  refine ⟨by decide, ?_, by decide, ?_⟩
  · have h1 : totalChildren demoTree = 1 := by decide
    have h2 : completedChildren demoTree = 0 := by decide
    rw [calculate_progress, h1, h2]
    norm_num
  · have h1 : totalChildren (toggleTask demoTree ("p_0_c_0") true) = 1 := by
      decide
    have h2 : completedChildren (toggleTask demoTree ("p_0_c_0") true) = 1 := by
      decide
    rw [calculate_progress, h1, h2]
    norm_num

/-- C4 counterexample: when the requested value equals the phase's stored
flag, the change-detection guard at line 263 does not fire, so nothing
cascades: here `togglePhase(tree, "p_0", false)` on a phase already false
leaves its completed child completed, while the claim demands every child
become false. -/
theorem togglePhase_counterexample :
    ¬ (∀ p ∈ togglePhase [mixedPhase] ("p_0") false, p.id = "p_0" →
        p.completed = false ∧ ∀ c ∈ p.children, c.completed = false) := by
  decide

/-- C4 as amended: whenever the requested value differs from the stored
flag of every phase carrying the id (a real toggle), the handler sets the
phase and each of its children to that value, in both directions; when
the value already equals the stored flag the handler leaves the phase and
its children untouched. -/
theorem togglePhase_cascade (wbs : List PhaseNode) (pid : String) (v : Bool)
    (h : ∀ p ∈ wbs, p.id = pid → p.completed ≠ v) :
    ∀ q ∈ togglePhase wbs pid v, q.id = pid →
      q.completed = v ∧ ∀ c ∈ q.children, c.completed = v := by
  intro q hq hid
  rw [togglePhase, List.mem_map] at hq
  obtain ⟨p, hp, hq⟩ := hq
  by_cases hc : p.id = pid ∧ v ≠ p.completed
  · rw [if_pos hc] at hq
    subst hq
    refine ⟨rfl, fun c hcmem => ?_⟩
    rw [List.mem_map] at hcmem
    obtain ⟨c0, _, hc0⟩ := hcmem
    rw [← hc0]
  · rw [if_neg hc] at hq
    subst hq
    have hvp : v = p.completed := not_not.mp (fun hne => hc ⟨hid, hne⟩)
    exact absurd hvp.symm (h p hp hid)

theorem togglePhase_cascade_witness :
    ({ id := "p_0", name := "A", level := 0, completed := true,
       expanded := true,
       children := [{ id := "p_0_c_0", name := "T", level := 1,
                      completed := true }] } : PhaseNode).completed = true ∧
    ∀ c ∈ ({ id := "p_0", name := "A", level := 0, completed := true,
             expanded := true,
             children := [{ id := "p_0_c_0", name := "T", level := 1,
                            completed := true }] } : PhaseNode).children,
      c.completed = true :=
  togglePhase_cascade [phaseA] ("p_0") true (by decide)
    { id := "p_0", name := "A", level := 0, completed := true,
      expanded := true,
      children := [{ id := "p_0_c_0", name := "T", level := 1,
                     completed := true }] }
    (by decide) rfl

/-- C6: adding a task to the phase found for `pid` appends exactly one new
incomplete task to its children and forces the phase's flag to false (so a
previously completed phase is un-completed); every other position of the
tree is untouched. -/
theorem addTask_spec (wbs : List PhaseNode) (pid name : String) (i : Nat)
    (p : PhaseNode)
    (hfind : wbs.findIdx? (fun q => q.id = pid) = some i)
    (hget : wbs.get? i = some p) :
    (addTask wbs pid name).get? i =
      some { p with
               children := p.children ++
                 [{ id := "p_" ++ toString i ++ "_c_" ++
                      toString p.children.length
                    name := name
                    level := 1
                    completed := false }]
               completed := false } ∧
    ∀ j, j ≠ i → (addTask wbs pid name).get? j = wbs.get? j := by
  have hlt : i < wbs.length := lt_length_of_get?_eq_some hget
  simp only [addTask, hfind, hget]
  refine ⟨?_, fun j hj => ?_⟩
  · exact listGetSetSelf _ _ _ hlt
  · exact listGetSetOther _ _ _ _ hj

theorem addTask_spec_witness :
    (addTask [phaseA, phaseB] ("p_1") ("New task")).get? 1 =
      some { phaseB with
               children := phaseB.children ++
                 [{ id := "p_" ++ toString 1 ++ "_c_" ++
                      toString phaseB.children.length
                    name := "New task"
                    level := 1
                    completed := false }]
               completed := false } ∧
    ∀ j, j ≠ 1 →
      (addTask [phaseA, phaseB] ("p_1") ("New task")).get? j =
        ([phaseA, phaseB] : List PhaseNode).get? j :=
  addTask_spec [phaseA, phaseB] ("p_1") ("New task") 1 phaseB (by decide) rfl

/-- The stable-state completion invariant of the spec: a phase with
children carries the conjunction of its children's flags; a childless
phase keeps an independent flag. -/
def ConsInv (wbs : List PhaseNode) : Prop :=
  ∀ p ∈ wbs, p.children ≠ [] →
    p.completed = p.children.all (fun c => c.completed)

/-- C7 (code bug): on a tree satisfying the completion invariant —
`p_0` incomplete with one incomplete task, `p_1` childless and completed —
toggling task `p_0_c_0` also flips phase `p_1` to false.  Line 276 of
`app.py` comments "Assume true if no children" but assigns `False` for a
childless phase, so the sync at lines 300-302 fires for completed
childless phases on every toggle elsewhere. -/
theorem toggleTask_changes_unrelated_phase :
    ConsInv [phaseA, phaseB] ∧
    phaseB.children = [] ∧ phaseB.completed = true ∧
    (toggleTask [phaseA, phaseB] ("p_0_c_0") true).map
        (fun p => (p.id, p.completed)) =
      [("p_0", true), ("p_1", false)] := by
  refine ⟨?_, rfl, rfl, by decide⟩
  unfold ConsInv
  decide

/-! ### Positional-id invariant (parse, add-phase, add-task) -/

theorem toString_coe_nat (n : Nat) : toString ((n : Int)) = toString n := rfl

theorem toString_int_toNat (n : Int) (h : 0 ≤ n) :
    toString n = toString n.toNat := by
  conv_lhs => rw [← Int.toNat_of_nonneg h]
  exact toString_coe_nat _

/-- Positional-id invariant: the phase at index `i` carries id `p_i`, and
its child at index `j` carries id `p_i_c_j`. -/
def PosIdInv (wbs : List PhaseNode) : Prop :=
  ∀ i q, wbs.get? i = some q →
    q.id = "p_" ++ toString i ∧
    ∀ j c, q.children.get? j = some c →
      c.id = "p_" ++ toString i ++ "_c_" ++ toString j

theorem posIdInv_append (wbs : List PhaseNode) (p : PhaseNode)
    (h : PosIdInv wbs) (hid : p.id = "p_" ++ toString wbs.length)
    (hch : p.children = []) : PosIdInv (wbs ++ [p]) := by
  intro i q hq
  rw [listGetAppendLast] at hq
  split at hq
  · exact h i q hq
  · split at hq
    · rename_i hlt heq
      injection hq with hq
      subst hq
      constructor
      · rw [hid, heq]
      · intro j c hc
        rw [hch] at hc
        exact Option.noConfusion hc
    · exact Option.noConfusion hq

theorem posIdInv_set_append_child (wbs : List PhaseNode) (i : Nat)
    (p q : PhaseNode) (c : TaskNode) (h : PosIdInv wbs)
    (hget : wbs.get? i = some p)
    (hcid : c.id = "p_" ++ toString i ++ "_c_" ++ toString p.children.length)
    (hqid : q.id = p.id)
    (hqch : q.children = p.children ++ [c]) :
    PosIdInv (wbs.set i q) := by
  intro i' q' hq'
  by_cases hii : i' = i
  · subst hii
    rw [listGetSetSelf _ _ _ (lt_length_of_get?_eq_some hget)] at hq'
    injection hq' with hq'
    subst hq'
    obtain ⟨hid, hch⟩ := h i' p hget
    constructor
    · rw [hqid, hid]
    · intro j c' hc'
      rw [hqch, listGetAppendLast] at hc'
      split at hc'
      · exact hch j c' hc'
      · split at hc'
        · rename_i hlt heq
          injection hc' with hc'
          subst hc'
          rw [hcid, heq]
        · exact Option.noConfusion hc'
  · rw [listGetSetOther _ _ _ _ hii] at hq'
    exact h i' q' hq'

/-- Auxiliary invariant of the parser state: `parent_index` is always the
index of the last phase appended (-1 while none exists), and the positional
ids hold. -/
def StInv (st : ParseState) : Prop :=
  st.parentIndex + 1 = st.wbs.length ∧ PosIdInv st.wbs

theorem processRow_stInv (st : ParseState) (row : List String)
    (h : StInv st) : StInv (processRow st row) := by
  obtain ⟨hlen, hinv⟩ := h
  simp only [processRow]
  split
  · exact ⟨hlen, hinv⟩
  · split
    · refine ⟨?_, ?_⟩
      · simp only [List.length_append, List.length_cons, List.length_nil]
        push_cast
        omega
      · apply posIdInv_append _ _ hinv ?_ rfl
        have hc : st.parentIndex + 1 = (st.wbs.length : Int) := hlen
        rw [hc, toString_coe_nat]
    · split
      · rename_i hcond
        split
        · exact ⟨hlen, hinv⟩
        · rename_i cp hsome
          refine ⟨?_, ?_⟩
          · simp only [List.length_set]
            exact hlen
          · exact posIdInv_set_append_child st.wbs st.parentIndex.toNat cp
              { cp with
                  children := cp.children ++
                    [{ id := "p_" ++ toString st.parentIndex ++ "_c_" ++
                         toString cp.children.length
                       name := pyStrip (row.getD 1 (""))
                       level := 1
                       completed := false }] }
              { id := "p_" ++ toString st.parentIndex ++ "_c_" ++
                  toString cp.children.length
                name := pyStrip (row.getD 1 (""))
                level := 1
                completed := false }
              hinv hsome
              (by rw [toString_int_toNat st.parentIndex hcond.1])
              rfl rfl
      · exact ⟨hlen, hinv⟩

theorem foldl_processRow_stInv (rows : List (List String)) (st : ParseState)
    (h : StInv st) : StInv (rows.foldl processRow st) := by
  induction rows generalizing st with
  | nil => exact h
  | cons r t ih => exact ih (processRow st r) (processRow_stInv st r h)

theorem posIdInv_sync (wbs : List PhaseNode) (h : PosIdInv wbs) :
    PosIdInv (sync_parent_completion wbs) := by
  intro i q hq
  rw [sync_parent_completion, List.get?_map] at hq
  cases hw : wbs.get? i with
  | none =>
    rw [hw] at hq
    exact Option.noConfusion hq
  | some p =>
    rw [hw] at hq
    obtain ⟨hid, hch⟩ := h i p hw
    injection hq with hq
    subst hq
    by_cases hc : p.children = []
    · simp only [if_pos hc]
      exact ⟨hid, hch⟩
    · simp only [if_neg hc]
      exact ⟨hid, hch⟩

theorem posIdInv_parse (rows : List (List String)) :
    PosIdInv (parse_csv_to_wbs rows) := by
  have h0 : StInv { wbs := [], parentIndex := -1 } := by
    constructor
    · decide
    · intro i q hq
      exact Option.noConfusion hq
  exact posIdInv_sync _ ((foldl_processRow_stInv (rows.drop 7) _ h0).2)

theorem posIdInv_addPhase (wbs : List PhaseNode) (name : String)
    (h : PosIdInv wbs) : PosIdInv (addPhase wbs name) :=
  posIdInv_append _ _ h rfl rfl

theorem posIdInv_addTask (wbs : List PhaseNode) (pid name : String)
    (h : PosIdInv wbs) : PosIdInv (addTask wbs pid name) := by
  simp only [addTask]
  split
  · exact h
  · split
    · exact h
    · rename_i hget
      exact posIdInv_set_append_child _ _ _ _ _ h hget rfl rfl rfl

/-- Trees reachable from a parse by any sequence of add-phase and add-task
operations. -/
inductive Reachable : List PhaseNode → Prop where
  | parsed (rows : List (List String)) : Reachable (parse_csv_to_wbs rows)
  | added_phase (wbs : List PhaseNode) (name : String) :
      Reachable wbs → Reachable (addPhase wbs name)
  | added_task (wbs : List PhaseNode) (pid name : String) :
      Reachable wbs → Reachable (addTask wbs pid name)

/-- C10: in every tree reachable by parsing followed by any sequence of
add-phase and add-task operations, the phase at index `i` has id `p_i` and
its child at index `j` has id `p_i_c_j`; in particular the index-derived
ids assigned by the add-child handler agree with the parent's stored id. -/
theorem reachable_posIdInv (wbs : List PhaseNode) (h : Reachable wbs) :
    PosIdInv wbs := by
  induction h with
  | parsed rows => exact posIdInv_parse rows
  | added_phase w name _ ih => exact posIdInv_addPhase w name ih
  | added_task w pid name _ ih => exact posIdInv_addTask w pid name ih

theorem reachable_posIdInv_witness :
    PosIdInv (addTask (addPhase (parse_csv_to_wbs (csvRowsOfText demoText))
        ("Phase 3")) ("p_1") ("New")) :=
  reachable_posIdInv _
    (Reachable.added_task _ ("p_1") ("New")
      (Reachable.added_phase _ ("Phase 3")
        (Reachable.parsed (csvRowsOfText demoText))))
